import Mathlib

/-!
# rift-cli: a shallow embedding of `repository.go` and `ignore.go`

The development follows the Go sources function by function.

* Go strings that hold paths, patterns and messages are lists of Unicode
  code points (`Str`); file contents are lists of bytes (`Bytes`).
* The file system is a finite map from cleaned path names to nodes.  The
  working directory `.` and the root `/` always exist.  Permissions are not
  modelled, and the states considered are trees (the ancestors of an entry
  are directories).
* `crypto/sha256`, `encoding/hex`, `path/filepath` (POSIX flavour),
  `bufio.Scanner`, `strings` and the part of `regexp` that the translated
  ignore patterns exercise are written out as executable functions.
-/

namespace Rift

/-! ## Strings and bytes -/

abbrev Str := List Char

abbrev Bytes := List UInt8

/-- UTF-8 encoding of a string, the bytes behind a Go `string`. -/
def utf8 (s : Str) : Bytes := s.flatMap String.utf8EncodeChar

/-- Continuation byte test of UTF-8 (`10xxxxxx`). -/
def isCont (b : UInt8) : Bool := 0x80 ≤ b.toNat && b.toNat ≤ 0xBF

/-- One step of `utf8.DecodeRune`: the rune at the head of the input and its
width; malformed input yields U+FFFD with width 1. -/
def decodeRune : Bytes → Char × Nat
  | [] => (Char.ofNat 0xFFFD, 1)
  | b0 :: rest =>
    let n0 := b0.toNat
    if n0 < 0x80 then (Char.ofNat n0, 1)
    else match rest with
      | b1 :: rest1 =>
        let n1 := b1.toNat
        if 0xC2 ≤ n0 && n0 ≤ 0xDF && isCont b1 then
          (Char.ofNat ((n0 % 32) * 64 + n1 % 64), 2)
        else match rest1 with
          | b2 :: rest2 =>
            let n2 := b2.toNat
            let lo3 := if n0 = 0xE0 then 0xA0 else 0x80
            let hi3 := if n0 = 0xED then 0x9F else 0xBF
            if 0xE0 ≤ n0 && n0 ≤ 0xEF && lo3 ≤ n1 && n1 ≤ hi3 && isCont b2 then
              (Char.ofNat (((n0 % 16) * 64 + n1 % 64) * 64 + n2 % 64), 3)
            else match rest2 with
              | b3 :: _ =>
                let lo4 := if n0 = 0xF0 then 0x90 else 0x80
                let hi4 := if n0 = 0xF4 then 0x8F else 0xBF
                if 0xF0 ≤ n0 && n0 ≤ 0xF4 && lo4 ≤ n1 && n1 ≤ hi4 && isCont b2 && isCont b3 then
                  (Char.ofNat ((((n0 % 8) * 64 + n1 % 64) * 64 + n2 % 64) * 64 + b3.toNat % 64), 4)
                else (Char.ofNat 0xFFFD, 1)
              | [] => (Char.ofNat 0xFFFD, 1)
          | [] => (Char.ofNat 0xFFFD, 1)
      | [] => (Char.ofNat 0xFFFD, 1)

/-- Runes of a byte string, as a `range` loop over a Go string sees them. -/
def decodeUtf8 : Nat → Bytes → Str
  | 0, _ => []
  | _, [] => []
  | fuel + 1, b :: bs =>
    let r := decodeRune (b :: bs)
    r.1 :: decodeUtf8 fuel ((b :: bs).drop r.2)

def runes (bs : Bytes) : Str := decodeUtf8 bs.length bs

/-! ## `crypto/sha256` and `encoding/hex` -/

def w32 (n : Nat) : Nat := n % 2 ^ 32

def rotr (x n : Nat) : Nat := w32 ((x >>> n) ||| (x <<< (32 - n)))

def sha256K : List Nat := [
  0x428a2f98, 0x71374491, 0xb5c0fbcf, 0xe9b5dba5, 0x3956c25b, 0x59f111f1, 0x923f82a4, 0xab1c5ed5,
  0xd807aa98, 0x12835b01, 0x243185be, 0x550c7dc3, 0x72be5d74, 0x80deb1fe, 0x9bdc06a7, 0xc19bf174,
  0xe49b69c1, 0xefbe4786, 0x0fc19dc6, 0x240ca1cc, 0x2de92c6f, 0x4a7484aa, 0x5cb0a9dc, 0x76f988da,
  0x983e5152, 0xa831c66d, 0xb00327c8, 0xbf597fc7, 0xc6e00bf3, 0xd5a79147, 0x06ca6351, 0x14292967,
  0x27b70a85, 0x2e1b2138, 0x4d2c6dfc, 0x53380d13, 0x650a7354, 0x766a0abb, 0x81c2c92e, 0x92722c85,
  0xa2bfe8a1, 0xa81a664b, 0xc24b8b70, 0xc76c51a3, 0xd192e819, 0xd6990624, 0xf40e3585, 0x106aa070,
  0x19a4c116, 0x1e376c08, 0x2748774c, 0x34b0bcb5, 0x391c0cb3, 0x4ed8aa4a, 0x5b9cca4f, 0x682e6ff3,
  0x748f82ee, 0x78a5636f, 0x84c87814, 0x8cc70208, 0x90befffa, 0xa4506ceb, 0xbef9a3f7, 0xc67178f2]

/-- The eight 32-bit working variables of SHA-256. -/
structure ShaState where
  a : Nat
  b : Nat
  c : Nat
  d : Nat
  e : Nat
  f : Nat
  g : Nat
  h : Nat
  deriving DecidableEq, Repr

def sha256Init : ShaState :=
  ⟨0x6a09e667, 0xbb67ae85, 0x3c6ef372, 0xa54ff53a, 0x510e527f, 0x9b05688c, 0x1f83d9ab, 0x5be0cd19⟩

/-- Big-endian 32-bit word of four bytes. -/
def beWord : List Nat → Nat
  | [b0, b1, b2, b3] => ((b0 * 256 + b1) * 256 + b2) * 256 + b3
  | _ => 0

/-- The first `k` consecutive chunks of `n` elements each. -/
def chunks (n : Nat) : Nat → List Nat → List (List Nat)
  | 0, _ => []
  | k + 1, xs => xs.take n :: chunks n k (xs.drop n)

/-- Message schedule extension; the list holds the most recent word first. -/
def schedule : Nat → List Nat → List Nat
  | 0, ws => ws
  | n + 1, ws =>
    let w2 := ws.getD 1 0
    let w7 := ws.getD 6 0
    let w15 := ws.getD 14 0
    let w16 := ws.getD 15 0
    let s0 := (rotr w15 7 ^^^ rotr w15 18) ^^^ (w15 >>> 3)
    let s1 := (rotr w2 17 ^^^ rotr w2 19) ^^^ (w2 >>> 10)
    schedule n (w32 (s1 + w7 + s0 + w16) :: ws)

def shaRound (s : ShaState) (kw : Nat × Nat) : ShaState :=
  let bigS1 := (rotr s.e 6 ^^^ rotr s.e 11) ^^^ rotr s.e 25
  let ch := (s.e &&& s.f) ^^^ ((s.e ^^^ 0xffffffff) &&& s.g)
  let t1 := w32 (s.h + bigS1 + ch + kw.1 + kw.2)
  let bigS0 := (rotr s.a 2 ^^^ rotr s.a 13) ^^^ rotr s.a 22
  let maj := ((s.a &&& s.b) ^^^ (s.a &&& s.c)) ^^^ (s.b &&& s.c)
  let t2 := w32 (bigS0 + maj)
  ⟨w32 (t1 + t2), s.a, s.b, s.c, w32 (s.d + t1), s.e, s.f, s.g⟩

def shaBlock (s : ShaState) (block : List Nat) : ShaState :=
  let w := (schedule 48 ((chunks 4 16 block).map beWord).reverse).reverse
  let t := (sha256K.zip w).foldl shaRound s
  ⟨w32 (s.a + t.a), w32 (s.b + t.b), w32 (s.c + t.c), w32 (s.d + t.d),
   w32 (s.e + t.e), w32 (s.f + t.f), w32 (s.g + t.g), w32 (s.h + t.h)⟩

/-- The `k` low-order bytes of `n`, most significant first. -/
def beBytes : Nat → Nat → List Nat
  | 0, _ => []
  | k + 1, n => (n / 256 ^ k) % 256 :: beBytes k n

def shaPad (msg : List Nat) : List Nat :=
  let l := msg.length
  msg ++ [0x80] ++ List.replicate ((119 - l % 64) % 64) 0 ++ beBytes 8 (8 * l)

/-- The digest `sha256.New()`, `Write`, `Sum(nil)` computes: 32 bytes. -/
def sha256 (msg : Bytes) : Bytes :=
  let p := shaPad (msg.map UInt8.toNat)
  let s := (chunks 64 (p.length / 64) p).foldl shaBlock sha256Init
  ([s.a, s.b, s.c, s.d, s.e, s.f, s.g, s.h].flatMap (beBytes 4)).map UInt8.ofNat

def hexDigit (n : Nat) : Char := "0123456789abcdef".toList.getD n '0'

/-- The lowercase hexadecimal text `hex.EncodeToString` returns. -/
def hexEncode (bs : Bytes) : Str :=
  bs.flatMap fun b => [hexDigit (b.toNat / 16), hexDigit (b.toNat % 16)]

/-! ## `path/filepath` (POSIX) -/

/-- Pieces of a string between occurrences of `sep` (`strings.Split`). -/
def splitOn (sep : Char) : Str → List Str
  | [] => [[]]
  | c :: cs =>
    if c = sep then [] :: splitOn sep cs
    else match splitOn sep cs with
      | [] => [[c]]
      | x :: xs => (c :: x) :: xs

/-- Concatenation with `sep` between the pieces (`strings.Join`). -/
def joinWith (sep : Str) : List Str → Str
  | [] => []
  | [x] => x
  | x :: y :: r => x ++ sep ++ joinWith sep (y :: r)

/-- One path element processed by `Clean`; `stack` holds the elements kept so
far, last one first. -/
def cleanStep (rooted : Bool) (stack : List Str) (c : Str) : List Str :=
  if c = [] ∨ c = ['.'] then stack
  else if c = ['.', '.'] then
    match stack with
    | [] => if rooted then [] else [c]
    | top :: rest => if top = ['.', '.'] then c :: stack else rest
  else c :: stack

/-- The result of `filepath.Clean`. -/
def Clean (p : Str) : Str :=
  let rooted := p.head? = some '/'
  let body := joinWith ['/'] ((splitOn '/' p).foldl (cleanStep rooted) []).reverse
  if rooted then '/' :: body else if body = [] then ['.'] else body

/-- The result of `filepath.Join`: leading empty elements are dropped, the rest
is joined with the separator and cleaned. -/
def Join (elems : List Str) : Str :=
  match elems.dropWhile (fun e => e.isEmpty) with
  | [] => []
  | es => Clean (joinWith ['/'] es)

/-- The result of `filepath.Dir`: everything up to the last separator, cleaned. -/
def Dir (p : Str) : Str :=
  Clean ((p.reverse.dropWhile (fun c => c ≠ '/')).reverse)

/-- The result of `filepath.Base` on a cleaned path: its last element. -/
def Base (p : Str) : Str :=
  (p.reverse.takeWhile (fun c => c ≠ '/')).reverse

/-! ## The file system -/

/-- What a path names: a regular file with its content, or a directory. -/
inductive Node where
  | file (content : Bytes)
  | dir
  deriving DecidableEq, Repr

/-- The `errno` values the operations below can report.  `os.IsNotExist`
holds of `notExist` only. -/
inductive OSError where
  | notExist
  | isDir
  | notDir
  | exist
  | notEmpty
  deriving DecidableEq, Repr

/-- A file-system state: cleaned path names with what they name. -/
abbrev FS := List (Str × Node)

def lookupNode : FS → Str → Option Node
  | [], _ => none
  | (k, v) :: rest, p => if k = p then some v else lookupNode rest p

/-- Replace the node at `p` in place, or add it at the end. -/
def setNode : FS → Str → Node → FS
  | [], p, n => [(p, n)]
  | (k, v) :: rest, p, n => if k = p then (k, n) :: rest else (k, v) :: setNode rest p n

def eraseNode : FS → Str → FS
  | [], _ => []
  | (k, v) :: rest, p => if k = p then rest else (k, v) :: eraseNode rest p

/-- The node a path resolves to; `.` and `/` are always directories. -/
def nodeAt (fs : FS) (p : Str) : Option Node :=
  if p = ['.'] ∨ p = ['/'] then some Node.dir else lookupNode fs p

/-- The error of resolving a missing path: `ENOTDIR` below a regular file,
`ENOENT` otherwise. -/
def missing (fs : FS) (p : Str) : OSError :=
  match nodeAt fs (Dir p) with
  | some (Node.file _) => OSError.notDir
  | _ => OSError.notExist

/-- Outcome of `os.Stat`. -/
def stat (fs : FS) (p : Str) : Except OSError Node :=
  match nodeAt fs p with
  | some n => .ok n
  | none => .error (missing fs p)

/-- Outcome of `ioutil.ReadFile` (also of `os.Open` followed by reading to
the end). -/
def readFile (fs : FS) (p : Str) : Except OSError Bytes :=
  match nodeAt fs p with
  | some (Node.file c) => .ok c
  | some Node.dir => .error OSError.isDir
  | none => .error (missing fs p)

/-- Outcome of `ioutil.WriteFile`: the file is created or truncated; its
directory has to exist. -/
def writeFile (fs : FS) (p : Str) (c : Bytes) : Except OSError FS :=
  match nodeAt fs p with
  | some Node.dir => .error OSError.isDir
  | some (Node.file _) => .ok (setNode fs p (Node.file c))
  | none =>
    match nodeAt fs (Dir p) with
    | some Node.dir => .ok (setNode fs p (Node.file c))
    | some (Node.file _) => .error OSError.notDir
    | none => .error OSError.notExist

/-- Whether some entry lies directly inside directory `d`. -/
def hasChildren (fs : FS) (d : Str) : Bool :=
  fs.any fun e => decide (e.1 ≠ d) && decide (Dir e.1 = d)

/-- Outcome of `os.Remove`. -/
def remove (fs : FS) (p : Str) : Except OSError FS :=
  match nodeAt fs p with
  | none => .error (missing fs p)
  | some (Node.file _) => .ok (eraseNode fs p)
  | some Node.dir => if hasChildren fs p then .error OSError.notEmpty else .ok (eraseNode fs p)

/-- Outcome of `os.Mkdir`. -/
def mkdir (fs : FS) (p : Str) : Except OSError FS :=
  match nodeAt fs p with
  | some _ => .error OSError.exist
  | none =>
    match nodeAt fs (Dir p) with
    | some Node.dir => .ok (setNode fs p Node.dir)
    | some (Node.file _) => .error OSError.notDir
    | none => .error OSError.notExist

/-- Outcome of `os.MkdirAll` on a cleaned path; the first argument bounds the
number of ancestors created. -/
def mkdirAllAux : Nat → FS → Str → Except OSError FS
  | 0, fs, p =>
    match nodeAt fs p with
    | some Node.dir => .ok fs
    | some (Node.file _) => .error OSError.notDir
    | none => mkdir fs p
  | fuel + 1, fs, p =>
    match nodeAt fs p with
    | some Node.dir => .ok fs
    | some (Node.file _) => .error OSError.notDir
    | none =>
      match mkdirAllAux fuel fs (Dir p) with
      | .error e => .error e
      | .ok fs1 => mkdir fs1 p

def mkdirAll (fs : FS) (p : Str) : Except OSError FS := mkdirAllAux p.length fs p

/-! ## `regexp`: the syntax the translated patterns use -/

/-- Abstract syntax of a regular expression. -/
inductive Re where
  | eps
  | lit (c : Char)
  | any
  | bol
  | eol
  | cat (a b : Re)
  | alt (a b : Re)
  | star (a : Re)
  | plus (a : Re)
  | opt (a : Re)
  deriving DecidableEq, Repr

/-- Iteration of a matcher `f`: every round has to consume input, which bounds
the number of rounds by the length of what is left. -/
def starLoop (f : Nat → Str → (Nat → Str → Bool) → Bool) :
    Nat → Nat → Str → (Nat → Str → Bool) → Bool
  | 0, i, s, k => k i s
  | n + 1, i, s, k => f i s (fun j t => decide (i < j) && starLoop f n j t k) || k i s

/-- Backtracking matcher in continuation style: `m r i s k` holds when `r`
matches a prefix of `s`, which starts at offset `i` of the text, and `k`
accepts the offset and the rest.  `.` excludes the line feed, `^` and `$`
are the ends of the text (no flags are set). -/
def Re.m : Re → Nat → Str → (Nat → Str → Bool) → Bool
  | .eps, i, s, k => k i s
  | .lit c, i, s, k =>
    match s with
    | x :: xs => decide (x = c) && k (i + 1) xs
    | [] => false
  | .any, i, s, k =>
    match s with
    | x :: xs => decide (x ≠ '\n') && k (i + 1) xs
    | [] => false
  | .bol, i, s, k => decide (i = 0) && k i s
  | .eol, i, s, k => s.isEmpty && k i s
  | .cat a b, i, s, k => a.m i s (fun j t => b.m j t k)
  | .alt a b, i, s, k => a.m i s k || b.m i s k
  | .star a, i, s, k => starLoop a.m s.length i s k
  | .plus a, i, s, k => a.m i s (fun j t => starLoop a.m t.length j t k)
  | .opt a, i, s, k => a.m i s k || k i s

/-- Whether a match starts at offset `i` or later. -/
def searchFrom (re : Re) : Nat → Str → Bool
  | i, [] => re.m i [] (fun _ _ => true)
  | i, c :: cs => re.m i (c :: cs) (fun _ _ => true) || searchFrom re (i + 1) cs

/-- The result of `(*Regexp).MatchString`: the expression matches somewhere in
the text. -/
def MatchString (re : Re) (s : Str) : Bool := searchFrom re 0 s

/-- Outcome of `regexp.Compile`.  `unmodelled` marks expressions that use
syntax left out of `Re`: character classes, counted repetition, group flags
and escapes of letters and digits. -/
inductive CompileResult where
  | ok (re : Re)
  | error
  | unmodelled
  deriving DecidableEq, Repr

/-- One nesting level of the parse: the finished alternatives and the pieces
of the alternative being read, most recent first. -/
structure Frame where
  alts : List Re
  cur : List Re
  deriving Repr

def catAll : List Re → Re
  | [] => Re.eps
  | [r] => r
  | r :: rs => Re.cat r (catAll rs)

def Frame.close (f : Frame) : Re :=
  f.alts.foldl (fun acc a => Re.alt a acc) (catAll f.cur.reverse)

def Frame.push (f : Frame) (r : Re) : Frame := ⟨f.alts, r :: f.cur⟩

def repOp (c : Char) (a : Re) : Re :=
  if c = '*' then Re.star a else if c = '+' then Re.plus a else Re.opt a

def isAlnum (c : Char) : Bool :=
  ('0' ≤ c && c ≤ '9') || ('a' ≤ c && c ≤ 'z') || ('A' ≤ c && c ≤ 'Z')

/-- What the parse loop remembers of the previous token: nothing, an opening
parenthesis, a repetition operator, or a repetition operator already followed
by the `?` that makes it reluctant. -/
inductive Prev where
  | plain
  | opened
  | rep
  | repDone
  deriving DecidableEq, Repr

/-- The parse loop of `regexp/syntax` with the Perl flags `regexp.Compile`
sets.  A repetition may not be repeated again; a `?` right after a repetition
operator makes it reluctant, which leaves the set of matched texts unchanged;
`(?` opens a flag group. -/
def parseRe : Str → Prev → Frame → List Frame → CompileResult
  | [], _, top, stack =>
    match stack with
    | [] => CompileResult.ok top.close
    | _ :: _ => CompileResult.error
  | c :: rest, prev, top, stack =>
    if c = '(' then parseRe rest Prev.opened ⟨[], []⟩ (top :: stack)
    else if c = ')' then
      match stack with
      | [] => CompileResult.error
      | f :: stack1 => parseRe rest Prev.plain (f.push top.close) stack1
    else if c = '|' then
      parseRe rest Prev.plain ⟨catAll top.cur.reverse :: top.alts, []⟩ stack
    else if c = '*' ∨ c = '+' ∨ c = '?' then
      if c = '?' ∧ prev = Prev.opened then CompileResult.unmodelled
      else if c = '?' ∧ prev = Prev.rep then parseRe rest Prev.repDone top stack
      else if prev = Prev.rep ∨ prev = Prev.repDone then CompileResult.error
      else match top.cur with
        | [] => CompileResult.error
        | a :: done => parseRe rest Prev.rep ⟨top.alts, repOp c a :: done⟩ stack
    else if c = '.' then parseRe rest Prev.plain (top.push Re.any) stack
    else if c = '^' then parseRe rest Prev.plain (top.push Re.bol) stack
    else if c = '$' then parseRe rest Prev.plain (top.push Re.eol) stack
    else if c = '[' ∨ c = '{' then CompileResult.unmodelled
    else if c = '\\' then
      match rest with
      | [] => CompileResult.error
      | e :: rest1 =>
        if 128 ≤ e.toNat then CompileResult.error
        else if isAlnum e then CompileResult.unmodelled
        else parseRe rest1 Prev.plain (top.push (Re.lit e)) stack
    else parseRe rest Prev.plain (top.push (Re.lit c)) stack

/-- The result of `regexp.Compile`. -/
def Compile (expr : Str) : CompileResult := parseRe expr Prev.plain ⟨[], []⟩ []

/-! ## `ignore.go` -/

/-- The operating systems `path/filepath` distinguishes. -/
inductive Platform where
  | unix
  | windows
  deriving DecidableEq, Repr

/-- The constant `filepath.Separator`. -/
def Separator : Platform → Char
  | .unix => '/'
  | .windows => '\\'

/-- The result of `strings.ReplaceAll` for a one-character `old`. -/
def replaceAll (old : Char) (new : Str) (s : Str) : Str :=
  s.flatMap fun c => if c = old then new else [c]

/-- The result of `strings.HasPrefix`. -/
def HasPrefix (s pre : Str) : Bool := pre.isPrefixOf s

/-- The result of `strings.HasSuffix`. -/
def HasSuffix (s suf : Str) : Bool := suf.isSuffixOf s

/-- The result of `filepath.ToSlash`. -/
def ToSlash (os : Platform) (path : Str) : Str :=
  if Separator os = '/' then path else replaceAll (Separator os) ['/'] path

/-- The result of `filepath.FromSlash`: the path written with the separator
of the platform. -/
def FromSlash (os : Platform) (path : Str) : Str :=
  if Separator os = '/' then path else replaceAll '/' [Separator os] path

/-- The predicate `unicode.IsSpace`. -/
def isSpace (c : Char) : Bool :=
  let n := c.toNat
  (9 ≤ n && n ≤ 13) || n = 0x20 || n = 0x85 || n = 0xA0 || n = 0x1680 ||
    (0x2000 ≤ n && n ≤ 0x200A) || n = 0x2028 || n = 0x2029 || n = 0x202F ||
    n = 0x205F || n = 0x3000

/-- The result of `strings.TrimSpace`. -/
def TrimSpace (s : Str) : Str :=
  ((s.dropWhile isSpace).reverse.dropWhile isSpace).reverse

/-- The struct `IgnoreChecker` of the source.  The field `modelled` is not in
the source: it records that every expression handed to `regexp.Compile`
stayed inside the syntax of `Re`, so that `regexps` is the list the
program holds. -/
structure IgnoreChecker where
  patterns : List Str
  regexps : List Re
  modelled : Bool
  deriving DecidableEq, Repr

/-- The regular expression text for an ignore pattern. -/
def convertToRegex (pattern : Str) : Str :=
  let p1 := replaceAll '.' ['\\', '.'] pattern
  let p2 := replaceAll '*' ['.', '*'] p1
  let p3 := replaceAll '?' ['.'] p2
  let p4 := if HasSuffix p3 ['/'] then p3 ++ ['.', '*'] else p3
  let p5 := if HasPrefix p4 ['/'] then '^' :: p4.drop 1 else "(^|.*/)".toList ++ p4
  p5 ++ "(/.*)?$".toList

/-- The pattern is recorded; its expression is kept when it compiles. -/
def IgnoreChecker.addPattern (ic : IgnoreChecker) (pattern : Str) : IgnoreChecker :=
  match Compile (convertToRegex pattern) with
  | .ok re => ⟨ic.patterns ++ [pattern], ic.regexps ++ [re], ic.modelled⟩
  | .error => ⟨ic.patterns ++ [pattern], ic.regexps, ic.modelled⟩
  | .unmodelled => ⟨ic.patterns ++ [pattern], ic.regexps, false⟩

/-- Split at every occurrence of the byte `sep`. -/
def splitBytes (sep : UInt8) : Bytes → List Bytes
  | [] => [[]]
  | c :: cs =>
    if c = sep then [] :: splitBytes sep cs
    else match splitBytes sep cs with
      | [] => [[c]]
      | x :: xs => (c :: x) :: xs

def dropLastIfEmpty : List Bytes → List Bytes
  | [] => []
  | [x] => if x = [] then [] else [x]
  | x :: y :: r => x :: dropLastIfEmpty (y :: r)

def dropCR (line : Bytes) : Bytes :=
  match line.reverse with
  | 13 :: r => r.reverse
  | _ => line

/-- The size `bufio.MaxScanTokenSize`. -/
def MaxScanTokenSize : Nat := 64 * 1024

/-- The tokens of a `bufio.Scanner` with `ScanLines`: the lines without their
terminator, or `none` when a line does not fit the buffer (`ErrTooLong`). -/
def scanLines (content : Bytes) : Option (List Bytes) :=
  let raw := dropLastIfEmpty (splitBytes 10 content)
  if raw.any (fun l => decide (MaxScanTokenSize ≤ l.length)) then none
  else some (raw.map dropCR)

/-- Why `NewIgnoreChecker` failed: an error of the operating system, or the
scanner error. -/
inductive IgnoreError where
  | os (e : OSError)
  | tooLong
  deriving DecidableEq, Repr

/-- The loop body of `loadIgnoreFile` for one scanned line.  A line that is not
valid UTF-8 cannot be held in `Str`; it is marked as outside the model. -/
def loadLine (ic : IgnoreChecker) (raw : Bytes) : IgnoreChecker :=
  let line := TrimSpace (runes raw)
  if line = [] ∨ HasPrefix line ['#'] then ic
  else if utf8 (runes raw) = raw then ic.addPattern line
  else ⟨ic.patterns ++ [line], ic.regexps, false⟩

def IgnoreChecker.loadIgnoreFile (ic : IgnoreChecker) (fs : FS) (path : Str) :
    Except IgnoreError IgnoreChecker :=
  match readFile fs path with
  | .error e => .error (IgnoreError.os e)
  | .ok content =>
    match scanLines content with
    | none => .error IgnoreError.tooLong
    | some lines => .ok (lines.foldl loadLine ic)

def defaultIgnores : List Str :=
  [".rift".toList, ".rift/**".toList, ".DS_Store".toList, "Thumbs.db".toList]

def NewIgnoreChecker (fs : FS) (repoPath : Str) : Except IgnoreError IgnoreChecker :=
  let ic := defaultIgnores.foldl IgnoreChecker.addPattern ⟨[], [], true⟩
  let riftignorePath := Join [repoPath, ".riftignore".toList]
  match stat fs riftignorePath with
  | .ok _ => ic.loadIgnoreFile fs riftignorePath
  | .error _ => .ok ic

def IgnoreChecker.ShouldIgnore (os : Platform) (ic : IgnoreChecker) (path : Str) : Bool :=
  let normalizedPath := ToSlash os path
  let normalizedPath :=
    if HasPrefix normalizedPath ['.', '/'] then normalizedPath.drop 2 else normalizedPath
  ic.regexps.any fun regex => MatchString regex normalizedPath

/-! ## `repository.go` -/

def RiftDir : Str := ".rift".toList

def ObjectsDir : Str := ".rift/objects".toList

def RefsDir : Str := ".rift/refs".toList

def HeadFile : Str := ".rift/HEAD".toList

def IndexFile : Str := ".rift/index".toList

/-- A `time.Time` by its calendar fields in its own zone and the offset of the
zone from UTC in seconds. -/
structure Time where
  year : Nat
  month : Nat
  day : Nat
  hour : Nat
  minute : Nat
  second : Nat
  offset : Int
  deriving DecidableEq, Repr

/-- Decimal digits of `n`, padded with zeros to `width`. -/
def padInt (width n : Nat) : Str :=
  let ds := Nat.toDigits 10 n
  List.replicate (width - ds.length) '0' ++ ds

/-- The text `t.Format(time.RFC3339)`. -/
def formatRFC3339 (t : Time) : Str :=
  let zone := t.offset.natAbs / 60
  let zoneText :=
    if t.offset = 0 then ['Z']
    else (if t.offset < 0 ∧ zone ≠ 0 then '-' else '+') ::
      (padInt 2 (zone / 60) ++ [':'] ++ padInt 2 (zone % 60))
  padInt 4 t.year ++ ['-'] ++ padInt 2 t.month ++ ['-'] ++ padInt 2 t.day ++ ['T'] ++
    padInt 2 t.hour ++ [':'] ++ padInt 2 t.minute ++ [':'] ++ padInt 2 t.second ++ zoneText

structure Commit where
  Hash : Str
  Message : Str
  Timestamp : Time
  Files : List Str
  deriving DecidableEq, Repr

structure Repository where
  Path : Str
  deriving DecidableEq, Repr

def NewRepository (path : Str) : Repository := ⟨path⟩

/-- The errors the methods of `Repository` return, one constructor per
message of the source. -/
inductive RiftError where
  | createDirectory (dir : Str) (e : OSError)
  | createHead (e : OSError)
  | ignoreChecker (e : IgnoreError)
  | ignored (filename : Str)
  | doesNotExist (filename : Str)
  | hashFile (e : OSError)
  | storeObject (e : OSError)
  | os (e : OSError)
  | readIndex (e : OSError)
  | nothingToCommit
  | createCommitObject (e : OSError)
  | updateHead (e : OSError)
  | clearIndex (e : OSError)
  | walk (e : OSError)
  deriving DecidableEq, Repr

/-- The loop of `Init` over the directories to create. -/
def initDirs : List Str → FS → Except RiftError Unit × FS
  | [], fs => (.ok (), fs)
  | dir :: rest, fs =>
    match mkdirAll fs dir with
    | .error e => (.error (RiftError.createDirectory dir e), fs)
    | .ok fs1 => initDirs rest fs1

def Repository.Init (r : Repository) (fs : FS) : Except RiftError Unit × FS :=
  let dirs := [Join [r.Path, RiftDir], Join [r.Path, ObjectsDir], Join [r.Path, RefsDir]]
  match initDirs dirs fs with
  | (.error e, fs1) => (.error e, fs1)
  | (.ok _, fs1) =>
    let headFile := Join [r.Path, HeadFile]
    match writeFile fs1 headFile (utf8 "ref: refs/heads/main\n".toList) with
    | .error e => (.error (RiftError.createHead e), fs1)
    | .ok fs2 => (.ok (), fs2)

def Repository.hashFile (_r : Repository) (fs : FS) (filename : Str) : Except OSError Str :=
  match readFile fs filename with
  | .error e => .error e
  | .ok content => .ok (hexEncode (sha256 content))

def Repository.storeObject (r : Repository) (fs : FS) (hash filename : Str) :
    Except OSError Unit × FS :=
  let objectPath := Join [r.Path, ObjectsDir, hash]
  match readFile fs filename with
  | .error e => (.error e, fs)
  | .ok content =>
    match writeFile fs objectPath content with
    | .error e => (.error e, fs)
    | .ok fs1 => (.ok (), fs1)

/-- A Go `map[string]string`: the entries, one per key. -/
abbrev Index := List (Str × Str)

/-- The assignment `index[key] = value`. -/
def Index.set : Index → Str → Str → Index
  | [], key, value => [(key, value)]
  | (k, v) :: rest, key, value =>
    if k = key then (k, value) :: rest else (k, v) :: Index.set rest key value

def Repository.readIndex (r : Repository) (fs : FS) : Except OSError Index :=
  let indexPath := Join [r.Path, IndexFile]
  match readFile fs indexPath with
  | .error e => if e = OSError.notExist then .ok [] else .error e
  | .ok content =>
    let index : Index := []
    if content = [] then .ok index
    else .ok index

def Repository.updateIndex (r : Repository) (fs : FS) (filename hash : Str) :
    Except OSError Unit × FS :=
  let indexPath := Join [r.Path, IndexFile]
  let loaded : Except OSError Index :=
    match r.readIndex fs with
    | .error e => if e = OSError.notExist then .ok [] else .error e
    | .ok index => .ok index
  match loaded with
  | .error e => (.error e, fs)
  | .ok index0 =>
    let index := Index.set index0 filename hash
    let indexContent := index.flatMap fun e => e.1 ++ [' '] ++ e.2 ++ ['\n']
    match writeFile fs indexPath (utf8 indexContent) with
    | .error e => (.error e, fs)
    | .ok fs1 => (.ok (), fs1)

def Repository.AddFile (r : Repository) (fs : FS) (filename : Str) :
    Except RiftError Unit × FS :=
  match NewIgnoreChecker fs r.Path with
  | .error e => (.error (RiftError.ignoreChecker e), fs)
  | .ok ignoreChecker =>
    if ignoreChecker.ShouldIgnore Platform.unix filename then
      (.error (RiftError.ignored filename), fs)
    else
      let fullPath := Join [r.Path, filename]
      match stat fs fullPath with
      | .error OSError.notExist => (.error (RiftError.doesNotExist filename), fs)
      | _ =>
        match r.hashFile fs fullPath with
        | .error e => (.error (RiftError.hashFile e), fs)
        | .ok hash =>
          match r.storeObject fs hash fullPath with
          | (.error e, fs1) => (.error (RiftError.storeObject e), fs1)
          | (.ok _, fs1) =>
            match r.updateIndex fs1 filename hash with
            | (.error e, fs2) => (.error (RiftError.os e), fs2)
            | (.ok _, fs2) => (.ok (), fs2)

/-- The text `createCommitObject` serializes a commit to. -/
def commitContent (commit : Commit) : Str :=
  "message: ".toList ++ commit.Message ++ "\ntimestamp: ".toList ++
    formatRFC3339 commit.Timestamp ++ "\nfiles:\n".toList ++
    commit.Files.flatMap fun file => [' ', ' '] ++ file ++ ['\n']

/-- The hash is returned together with the outcome of writing the object. -/
def Repository.createCommitObject (r : Repository) (fs : FS) (commit : Commit) :
    (Str × Except OSError Unit) × FS :=
  let content := utf8 (commitContent commit)
  let hash := hexEncode (sha256 content)
  let objectPath := Join [r.Path, ObjectsDir, hash]
  match writeFile fs objectPath content with
  | .error e => ((hash, .error e), fs)
  | .ok fs1 => ((hash, .ok ()), fs1)

def Repository.updateHead (r : Repository) (fs : FS) (commitHash : Str) :
    Except OSError Unit × FS :=
  let headPath := Join [r.Path, HeadFile]
  match writeFile fs headPath (utf8 ("commit: ".toList ++ commitHash ++ ['\n'])) with
  | .error e => (.error e, fs)
  | .ok fs1 => (.ok (), fs1)

def Repository.clearIndex (r : Repository) (fs : FS) : Except OSError Unit × FS :=
  let indexPath := Join [r.Path, IndexFile]
  match remove fs indexPath with
  | .error e => (.error e, fs)
  | .ok fs1 => (.ok (), fs1)

/-- The method `Commit`; `now` is the value `time.Now()` returns.  The files
of the commit are the keys of the index in the order the `range` loop yields
them.  The line printed on success is left out. -/
def Repository.Commit (r : Repository) (fs : FS) (message : Str) (now : Time) :
    Except RiftError Unit × FS :=
  match r.readIndex fs with
  | .error e => (.error (RiftError.readIndex e), fs)
  | .ok index =>
    if index.length = 0 then (.error RiftError.nothingToCommit, fs)
    else
      let commit : Rift.Commit := ⟨[], message, now, index.map Prod.fst⟩
      match r.createCommitObject fs commit with
      | ((_, .error e), fs1) => (.error (RiftError.createCommitObject e), fs1)
      | ((commitHash, .ok _), fs1) =>
        match r.updateHead fs1 commitHash with
        | (.error e, fs2) => (.error (RiftError.updateHead e), fs2)
        | (.ok _, fs2) =>
          match r.clearIndex fs2 with
          | (.error e, fs3) => (.error (RiftError.clearIndex e), fs3)
          | (.ok _, fs3) => (.ok (), fs3)

/-- The method `Status`: the lines it prints. -/
def Repository.Status (r : Repository) (fs : FS) : Except RiftError (List Str) :=
  match r.readIndex fs with
  | .error e => .error (RiftError.readIndex e)
  | .ok index =>
    if index.length = 0 then .ok ["Nothing staged for commit".toList]
    else .ok ("Changes to be committed:".toList ::
      index.map fun e => "  modified: ".toList ++ e.1)

/-! ## `filepath.Walk` and `GetAllFiles` -/

/-- Lexical order of strings. -/
def strLt : Str → Str → Bool
  | [], [] => false
  | [], _ :: _ => true
  | _ :: _, [] => false
  | a :: as, b :: bs => decide (a < b) || (decide (a = b) && strLt as bs)

def insertSorted (x : Str) : List Str → List Str
  | [] => [x]
  | y :: ys => if strLt y x then y :: insertSorted x ys else x :: y :: ys

/-- The sorted entry names of a directory (`readDirNames`). -/
def readDirNames (fs : FS) (d : Str) : List Str :=
  ((fs.filter fun e => decide (e.1 ≠ d) && decide (Dir e.1 = d)).map fun e => Base e.1).foldr
    insertSorted []

/-- The result of `filepath.Rel` when the target is the base or lies below it,
which is how `Walk` calls it; `none` otherwise. -/
def Rel (basepath targpath : Str) : Option Str :=
  let base := Clean basepath
  let targ := Clean targpath
  if targ = base then some ['.']
  else if base = ['.'] then (if targ.head? = some '/' then none else some targ)
  else if base = ['/'] then (if targ.head? = some '/' then some (targ.drop 1) else none)
  else if HasPrefix targ (base ++ ['/']) then some (targ.drop (base.length + 1))
  else none

/-- What a `WalkFunc` returns besides `nil`. -/
inductive WalkErr where
  | skipDir
  | os (e : OSError)
  | rel
  deriving DecidableEq, Repr

def Node.isDir : Node → Bool
  | .dir => true
  | .file _ => false

/-- The function `walk` of `path/filepath`; the first argument bounds the
depth of the descent. -/
def walkAux {σ : Type} (fn : Str → Except OSError Node → σ → σ × Option WalkErr) (fs : FS) :
    Nat → Str → Node → σ → σ × Option WalkErr
  | 0, path, info, st => fn path (.ok info) st
  | fuel + 1, path, info, st =>
    match info with
    | .file _ => fn path (.ok info) st
    | .dir =>
      match fn path (.ok info) st with
      | (st1, some e) => (st1, some e)
      | (st1, none) =>
        (readDirNames fs (Clean path)).foldl
          (fun acc name =>
            match acc with
            | (st2, some e) => (st2, some e)
            | (st2, none) =>
              let filename := Join [path, name]
              match nodeAt fs filename with
              | none =>
                match fn filename (.error (missing fs filename)) st2 with
                | (st3, some WalkErr.skipDir) => (st3, none)
                | res => res
              | some fileInfo =>
                match walkAux fn fs fuel filename fileInfo st2 with
                | (st3, some e) =>
                  if fileInfo.isDir ∧ e = WalkErr.skipDir then (st3, none) else (st3, some e)
                | res => res)
          (st1, none)

/-- The function `filepath.Walk`. -/
def Walk {σ : Type} (fn : Str → Except OSError Node → σ → σ × Option WalkErr) (fs : FS)
    (root : Str) (st : σ) : σ × Option WalkErr :=
  let res :=
    match (if root = [] then none else nodeAt fs (Clean root)) with
    | none => fn root (.error OSError.notExist) st
    | some info => walkAux fn fs (fs.length + 1) root info st
  match res with
  | (st1, some WalkErr.skipDir) => (st1, none)
  | other => other

/-- The function literal `GetAllFiles` hands to `filepath.Walk`. -/
def collect (ignoreChecker : IgnoreChecker) (root : Str) (path : Str)
    (info : Except OSError Node) (files : List Str) : List Str × Option WalkErr :=
  match info with
  | .error e => (files, some (WalkErr.os e))
  | .ok node =>
    match Rel root path with
    | none => (files, some WalkErr.rel)
    | some relPath =>
      if node.isDir || ignoreChecker.ShouldIgnore Platform.unix relPath then
        if node.isDir && ignoreChecker.ShouldIgnore Platform.unix relPath then
          (files, some WalkErr.skipDir)
        else (files, none)
      else (files ++ [relPath], none)

/-- The method `GetAllFiles`: the files collected and the error of the walk,
or the error of building the checker. -/
def Repository.GetAllFiles (r : Repository) (fs : FS) :
    Except IgnoreError (List Str × Option WalkErr) :=
  match NewIgnoreChecker fs r.Path with
  | .error e => .error e
  | .ok ignoreChecker => .ok (Walk (collect ignoreChecker r.Path) fs r.Path [])

/-- The paths the callback of `GetAllFiles` is invoked on, in order: the same
walk with the same pruning, recording every call. -/
def visited (r : Repository) (fs : FS) : List Str :=
  match NewIgnoreChecker fs r.Path with
  | .error _ => []
  | .ok ignoreChecker =>
    (Walk (fun path info (st : List Str × List Str) =>
        let res := collect ignoreChecker r.Path path info st.1
        ((res.1, st.2 ++ [path]), res.2)) fs r.Path ([], [])).1.2

/-! ## Example states -/

deriving instance DecidableEq for Except

/-- The repository `main.go` opens: the working directory. -/
def repo : Repository := NewRepository ['.']

/-- A file system from a listing: `none` is a directory, `some text` a file. -/
def mkFS (entries : List (String × Option String)) : FS :=
  entries.map fun e =>
    (e.1.toList, match e.2 with
      | none => Node.dir
      | some text => Node.file (utf8 text.toList))

/-- The state `rift init` leaves in an empty working directory. -/
def freshRepo : FS := (repo.Init []).2

/-- A fresh repository with one file `a.txt` in the working tree. -/
def oneFile : FS := setNode freshRepo "a.txt".toList (Node.file (utf8 "hello\n".toList))

/-- The state after `rift add a.txt`. -/
def staged : FS := (repo.AddFile oneFile "a.txt".toList).2

/-- The SHA-256 digest of `hello\n` in hexadecimal. -/
def helloDigest : Str :=
  "5891b5b522d5df086d0ff0b110fbd9d21bb4fc7163af34d08286a2e846f6be03".toList

/-- The answer of `ShouldIgnore` from the checker `NewIgnoreChecker` builds for
the repository at `root`; `none` when no checker is built or when a pattern
leaves the modelled syntax. -/
def ignores (fs : FS) (root path : Str) : Option Bool :=
  match NewIgnoreChecker fs root with
  | .error _ => none
  | .ok ic => if ic.modelled then some (ic.ShouldIgnore Platform.unix path) else none

/-! ## Lemmas on the file system -/

theorem lookupNode_setNode_self (fs : FS) (p : Str) (n : Node) :
    lookupNode (setNode fs p n) p = some n := by
  induction fs with
  | nil => simp [setNode, lookupNode]
  | cons e rest ih =>
    obtain ⟨k, v⟩ := e
    by_cases h : k = p
    · simp [setNode, lookupNode, h]
    · simp [setNode, lookupNode, h, ih]

theorem lookupNode_setNode_ne (fs : FS) (p q : Str) (n : Node) (hq : q ≠ p) :
    lookupNode (setNode fs p n) q = lookupNode fs q := by
  induction fs with
  | nil =>
    have hp : ¬ p = q := fun h => hq h.symm
    simp [setNode, lookupNode, hp]
  | cons e rest ih =>
    obtain ⟨k, v⟩ := e
    by_cases h : k = p
    · subst h
      have hk : ¬ k = q := fun h => hq h.symm
      simp [setNode, lookupNode, hk]
    · by_cases hkq : k = q
      · subst hkq
        simp [setNode, lookupNode, h]
      · simp [setNode, lookupNode, h, hkq, ih]

theorem setNode_setNode_same (fs : FS) (p : Str) (n : Node) :
    setNode (setNode fs p n) p n = setNode fs p n := by
  induction fs with
  | nil => simp [setNode]
  | cons e rest ih =>
    obtain ⟨k, v⟩ := e
    by_cases h : k = p
    · simp [setNode, h]
    · simp [setNode, h, ih]

theorem nodeAt_setNode_self (fs : FS) (p : Str) (n : Node)
    (h1 : p ≠ ['.']) (h2 : p ≠ ['/']) : nodeAt (setNode fs p n) p = some n := by
  simp [nodeAt, h1, h2, lookupNode_setNode_self]

theorem nodeAt_setNode_ne (fs : FS) (p q : Str) (n : Node) (hq : q ≠ p) :
    nodeAt (setNode fs p n) q = nodeAt fs q := by
  unfold nodeAt
  split
  · rfl
  · exact lookupNode_setNode_ne fs p q n hq

theorem nodeAt_not_dir_ne (fs : FS) (p : Str) (h : nodeAt fs p ≠ some Node.dir) :
    p ≠ ['.'] ∧ p ≠ ['/'] := by
  constructor
  · intro hp
    apply h
    simp [nodeAt, hp]
  · intro hp
    apply h
    simp [nodeAt, hp]

/-- Writing succeeds when the target is not a directory and its directory
exists; the new state is the old one with the file set. -/
theorem writeFile_ok (fs : FS) (p : Str) (c : Bytes)
    (hp : nodeAt fs p ≠ some Node.dir) (hd : nodeAt fs (Dir p) = some Node.dir) :
    writeFile fs p c = .ok (setNode fs p (Node.file c)) := by
  unfold writeFile
  cases hn : nodeAt fs p with
  | none => simp [hd]
  | some n =>
    cases n with
    | file c0 => rfl
    | dir => exact absurd hn hp

theorem readFile_of_nodeAt (fs : FS) (p : Str) (c : Bytes)
    (h : nodeAt fs p = some (Node.file c)) : readFile fs p = .ok c := by
  simp [readFile, h]

/-! ## Theorems -/

/-- C3. Content addressing round trip.  For a file holding `b`, `hashFile`
returns the hexadecimal SHA-256 digest of `b`, so any two files with equal
content, in any repository and state, get the same digest.  In a repository
whose objects directory exists and where the object path is not taken by a
directory, `storeObject` with that digest succeeds, the object file then holds
exactly `b`, and storing the same content again succeeds and leaves the state
as it is. -/
theorem content_addressing_round_trip (r : Repository) (fs : FS) (file : Str) (b : Bytes)
    (hfile : nodeAt fs file = some (Node.file b))
    (hobjects : nodeAt fs (Dir (Join [r.Path, ObjectsDir, hexEncode (sha256 b)])) =
      some Node.dir)
    (hfree : nodeAt fs (Join [r.Path, ObjectsDir, hexEncode (sha256 b)]) ≠ some Node.dir) :
    r.hashFile fs file = .ok (hexEncode (sha256 b)) ∧
    (∀ (r2 : Repository) (fs2 : FS) (file2 : Str),
      nodeAt fs2 file2 = some (Node.file b) → r2.hashFile fs2 file2 = r.hashFile fs file) ∧
    ∃ fs1 : FS,
      r.storeObject fs (hexEncode (sha256 b)) file = (.ok (), fs1) ∧
      readFile fs1 (Join [r.Path, ObjectsDir, hexEncode (sha256 b)]) = .ok b ∧
      r.storeObject fs1 (hexEncode (sha256 b)) file = (.ok (), fs1) := by
  have hread : readFile fs file = .ok b := readFile_of_nodeAt fs file b hfile
  have hne := nodeAt_not_dir_ne fs _ hfree
  refine ⟨by simp [Repository.hashFile, hread], ?_, ?_⟩
  · intro r2 fs2 file2 h2
    simp [Repository.hashFile, hread, readFile_of_nodeAt fs2 file2 b h2]
  · refine ⟨setNode fs (Join [r.Path, ObjectsDir, hexEncode (sha256 b)]) (Node.file b), ?_, ?_, ?_⟩
    · simp [Repository.storeObject, hread, writeFile_ok fs _ b hfree hobjects]
    · exact readFile_of_nodeAt _ _ _ (nodeAt_setNode_self fs _ _ hne.1 hne.2)
    · have hobj := nodeAt_setNode_self fs (Join [r.Path, ObjectsDir, hexEncode (sha256 b)])
        (Node.file b) hne.1 hne.2
      have hread1 : readFile (setNode fs (Join [r.Path, ObjectsDir, hexEncode (sha256 b)])
          (Node.file b)) file = .ok b := by
        by_cases hsame : file = Join [r.Path, ObjectsDir, hexEncode (sha256 b)]
        · rw [hsame]
          exact readFile_of_nodeAt _ _ _ hobj
        · apply readFile_of_nodeAt
          rw [nodeAt_setNode_ne fs _ file _ hsame]
          exact hfile
      have hwrite : writeFile (setNode fs (Join [r.Path, ObjectsDir, hexEncode (sha256 b)])
          (Node.file b)) (Join [r.Path, ObjectsDir, hexEncode (sha256 b)]) b =
          .ok (setNode fs (Join [r.Path, ObjectsDir, hexEncode (sha256 b)]) (Node.file b)) := by
        unfold writeFile
        rw [hobj]
        simp [setNode_setNode_same]
      simp [Repository.storeObject, hread1, hwrite]

/-- C3, at the working tree with `a.txt` holding `hello\n`: the hypotheses
hold there, so the object is stored under its digest. -/
theorem content_addressing_round_trip_witness :
    repo.hashFile oneFile "a.txt".toList = .ok (hexEncode (sha256 (utf8 "hello\n".toList))) ∧
    (∀ (r2 : Repository) (fs2 : FS) (file2 : Str),
      nodeAt fs2 file2 = some (Node.file (utf8 "hello\n".toList)) →
      r2.hashFile fs2 file2 = repo.hashFile oneFile "a.txt".toList) ∧
    ∃ fs1 : FS,
      repo.storeObject oneFile (hexEncode (sha256 (utf8 "hello\n".toList))) "a.txt".toList =
        (.ok (), fs1) ∧
      readFile fs1 (Join [repo.Path, ObjectsDir, hexEncode (sha256 (utf8 "hello\n".toList))]) =
        .ok (utf8 "hello\n".toList) ∧
      repo.storeObject fs1 (hexEncode (sha256 (utf8 "hello\n".toList))) "a.txt".toList =
        (.ok (), fs1) :=
  content_addressing_round_trip repo oneFile "a.txt".toList (utf8 "hello\n".toList)
    (by decide!) (by decide!) (by decide!)

/-- Whatever the index file holds, `readIndex` hands back an empty map when
it succeeds. -/
theorem readIndex_ok_nil (r : Repository) (fs : FS) (index : Index)
    (h : r.readIndex fs = .ok index) : index = [] := by
  simp only [Repository.readIndex] at h
  cases hread : readFile fs (Join [r.Path, IndexFile]) with
  | error e =>
    rw [hread] at h
    by_cases he : e = OSError.notExist
    · simp [he] at h
      exact h
    · simp [he] at h
  | ok content =>
    rw [hread] at h
    simp at h
    exact h

/-- `Commit` ends with the nothing-to-commit error and the state it was given
as soon as the index can be read. -/
theorem Commit_of_readIndex_ok (r : Repository) (fs : FS) (message : Str) (now : Time)
    (index : Index) (h : r.readIndex fs = .ok index) :
    r.Commit fs message now = (.error RiftError.nothingToCommit, fs) := by
  have hnil := readIndex_ok_nil r fs index h
  subst hnil
  simp [Repository.Commit, h]

/-- C4. `Commit` on an empty staging index.  When the index file is absent
from the repository directory, or is present and empty, `Commit` fails with
the nothing-to-commit error for every message and time, and the state it
returns is the state it was given: HEAD, the index file and the object store
are untouched. -/
theorem commit_empty_index_fails_unchanged (r : Repository) (fs : FS) (message : Str)
    (now : Time)
    (h : (nodeAt fs (Join [r.Path, IndexFile]) = none ∧
          nodeAt fs (Dir (Join [r.Path, IndexFile])) = some Node.dir) ∨
        nodeAt fs (Join [r.Path, IndexFile]) = some (Node.file [])) :
    r.Commit fs message now = (.error RiftError.nothingToCommit, fs) := by
  apply Commit_of_readIndex_ok r fs message now []
  rcases h with ⟨habsent, hdir⟩ | hempty
  · simp [Repository.readIndex, readFile, habsent, missing, hdir]
  · simp [Repository.readIndex, readFile, hempty]

/-- C4, in a freshly initialised repository, where no index file exists. -/
theorem commit_empty_index_fails_unchanged_witness :
    repo.Commit freshRepo "msg".toList ⟨2024, 1, 2, 3, 4, 5, 0⟩ =
      (.error RiftError.nothingToCommit, freshRepo) :=
  commit_empty_index_fails_unchanged repo freshRepo "msg".toList ⟨2024, 1, 2, 3, 4, 5, 0⟩
    (Or.inl (by decide!))

/-- C1. The index does not survive a reload.  `AddFile` on `a.txt` succeeds
and writes the line `a.txt <digest>` to the index file, yet `readIndex` on
that state returns the empty map; and in every state a successful
`readIndex` returns the empty map. -/
theorem readIndex_discards_persisted_entries :
    repo.AddFile oneFile "a.txt".toList = (.ok (), staged) ∧
    readFile staged (Join [repo.Path, IndexFile]) =
      .ok (utf8 ("a.txt ".toList ++ helloDigest ++ ['\n'])) ∧
    repo.readIndex staged = .ok [] ∧
    ∀ (r : Repository) (fs : FS) (index : Index), r.readIndex fs = .ok index → index = [] :=
  ⟨by decide!, by decide!, by decide!, readIndex_ok_nil⟩

/-- C2. `AddFile` followed by `Commit`.  In a freshly initialised repository
with the file `a.txt`, `AddFile` succeeds and stores the blob, but `Commit`
then fails with the nothing-to-commit error: HEAD still holds the symbolic
reference, no commit object is written and the index file keeps its line.
No state makes `Commit` succeed. -/
theorem commit_after_add_reports_nothing_to_commit :
    repo.Init [] = (.ok (), freshRepo) ∧
    repo.AddFile oneFile "a.txt".toList = (.ok (), staged) ∧
    readFile staged (Join [repo.Path, ObjectsDir, helloDigest]) = .ok (utf8 "hello\n".toList) ∧
    repo.Commit staged "msg".toList ⟨2024, 1, 2, 3, 4, 5, 0⟩ =
      (.error RiftError.nothingToCommit, staged) ∧
    readFile staged (Join [repo.Path, HeadFile]) = .ok (utf8 "ref: refs/heads/main\n".toList) ∧
    (∀ (r : Repository) (fs : FS) (message : Str) (now : Time),
      (r.Commit fs message now).1 ≠ .ok ()) := by
  refine ⟨by decide!, by decide!, by decide!, by decide!, by decide!, ?_⟩
  intro r fs message now
  cases hidx : r.readIndex fs with
  | error e => simp [Repository.Commit, hidx]
  | ok index => simp [Commit_of_readIndex_ok r fs message now index hidx]

/-- C10. `clearIndex` without an index file.  In a freshly initialised
repository, where the index file does not exist, `clearIndex` returns the
not-exist error of `os.Remove`.  After a file was staged the first call
removes the index file and a second call returns that error. -/
theorem clearIndex_fails_when_index_absent :
    nodeAt freshRepo (Join [repo.Path, IndexFile]) = none ∧
    repo.clearIndex freshRepo = (.error OSError.notExist, freshRepo) ∧
    (repo.clearIndex staged).1 = .ok () ∧
    repo.clearIndex (repo.clearIndex staged).2 =
      (.error OSError.notExist, (repo.clearIndex staged).2) :=
  ⟨by decide!, by decide!, by decide!, by decide!⟩

/-! ### Commit serialization -/

/-- A line ends at its first line feed: two texts that start with a line
without line feeds agree only if the lines and the rests agree. -/
theorem line_cancel (a b x y : Str) (ha : '\n' ∉ a) (hb : '\n' ∉ b)
    (h : a ++ '\n' :: x = b ++ '\n' :: y) : a = b ∧ x = y := by
  induction a generalizing b with
  | nil =>
    cases b with
    | nil => simpa using h
    | cons d ds =>
      simp at h
      exact absurd (h.1 ▸ List.mem_cons_self _ _) hb
  | cons c cs ih =>
    cases b with
    | nil =>
      simp at h
      exact absurd (h.1 ▸ List.mem_cons_self _ _) ha
    | cons d ds =>
      simp at h
      have hcs : '\n' ∉ cs := fun hm => ha (List.mem_cons_of_mem _ hm)
      have hds : '\n' ∉ ds := fun hm => hb (List.mem_cons_of_mem _ hm)
      obtain ⟨e1, e2⟩ := ih ds hcs hds h.2
      exact ⟨by rw [h.1, e1], e2⟩

/-- The file section of a commit determines the list of files. -/
theorem fileLines_injective (l1 l2 : List Str)
    (h1 : ∀ f ∈ l1, '\n' ∉ f) (h2 : ∀ f ∈ l2, '\n' ∉ f)
    (h : (l1.flatMap fun file => [' ', ' '] ++ file ++ ['\n']) =
      l2.flatMap fun file => [' ', ' '] ++ file ++ ['\n']) : l1 = l2 := by
  induction l1 generalizing l2 with
  | nil =>
    cases l2 with
    | nil => rfl
    | cons g gs => simp at h
  | cons f fs ih =>
    cases l2 with
    | nil => simp at h
    | cons g gs =>
      simp only [List.flatMap_cons, List.append_assoc, List.cons_append, List.nil_append,
        List.cons.injEq, true_and, List.singleton_append] at h
      have hf := h1 f (List.mem_cons_self _ _)
      have hg := h2 g (List.mem_cons_self _ _)
      obtain ⟨e1, e2⟩ := line_cancel f g _ _ hf hg h
      have := ih gs (fun x hx => h1 x (List.mem_cons_of_mem _ hx))
        (fun x hx => h2 x (List.mem_cons_of_mem _ hx)) e2
      rw [e1, this]

/-- C9, as the code has it.  The serialized commit lists the files in the
order of the list it is given: for one message and one timestamp and file
names without line feeds, two file lists yield the same content exactly when
they are the same sequence. -/
theorem commitContent_eq_iff_same_sequence (hash1 hash2 message : Str) (timestamp : Time)
    (files1 files2 : List Str)
    (h1 : ∀ f ∈ files1, '\n' ∉ f) (h2 : ∀ f ∈ files2, '\n' ∉ f) :
    commitContent ⟨hash1, message, timestamp, files1⟩ =
      commitContent ⟨hash2, message, timestamp, files2⟩ ↔ files1 = files2 := by
  constructor
  · intro h
    unfold commitContent at h
    exact fileLines_injective files1 files2 h1 h2 (List.append_cancel_left h)
  · intro h
    subst h
    rfl

/-- C9, at two lists that are equal: the hypotheses hold for `a.txt`, `b.txt`. -/
theorem commitContent_eq_iff_same_sequence_witness :
    commitContent ⟨[], "msg".toList, ⟨2024, 1, 2, 3, 4, 5, 0⟩,
        ["a.txt".toList, "b.txt".toList]⟩ =
      commitContent ⟨[], "msg".toList, ⟨2024, 1, 2, 3, 4, 5, 0⟩,
        ["b.txt".toList, "a.txt".toList]⟩ ↔
    ["a.txt".toList, "b.txt".toList] = ["b.txt".toList, "a.txt".toList] :=
  commitContent_eq_iff_same_sequence [] [] "msg".toList ⟨2024, 1, 2, 3, 4, 5, 0⟩
    ["a.txt".toList, "b.txt".toList] ["b.txt".toList, "a.txt".toList]
    (by decide) (by decide)

/-- C9 fails as stated: the lists `a.txt, b.txt` and `b.txt, a.txt` hold the
same set of paths, yet `createCommitObject` serializes them differently and
returns different hashes for the same message and timestamp. -/
theorem commit_content_depends_on_file_order :
    (∀ f : Str, f ∈ ["a.txt".toList, "b.txt".toList] ↔ f ∈ ["b.txt".toList, "a.txt".toList]) ∧
    commitContent ⟨[], "msg".toList, ⟨2024, 1, 2, 3, 4, 5, 0⟩,
        ["a.txt".toList, "b.txt".toList]⟩ ≠
      commitContent ⟨[], "msg".toList, ⟨2024, 1, 2, 3, 4, 5, 0⟩,
        ["b.txt".toList, "a.txt".toList]⟩ ∧
    (repo.createCommitObject freshRepo ⟨[], "msg".toList, ⟨2024, 1, 2, 3, 4, 5, 0⟩,
        ["a.txt".toList, "b.txt".toList]⟩).1 ≠
      (repo.createCommitObject freshRepo ⟨[], "msg".toList, ⟨2024, 1, 2, 3, 4, 5, 0⟩,
        ["b.txt".toList, "a.txt".toList]⟩).1 := by
  refine ⟨?_, by decide!, by decide!⟩
  intro f
  simp only [List.mem_cons, List.mem_singleton, List.not_mem_nil, or_false]
  exact Or.comm

/-! ### The matcher -/

theorem ToSlash_dot_slash (os : Platform) (p : Str) :
    ToSlash os ('.' :: '/' :: p) = '.' :: '/' :: ToSlash os p := by
  cases os with
  | unix => rfl
  | windows =>
    have h1 : ¬ ('.' = '\\') := by decide
    have h2 : ¬ ('/' = '\\') := by decide
    simp [ToSlash, Separator, replaceAll, h1, h2]

theorem ToSlash_FromSlash (os : Platform) (p : Str) :
    ToSlash os (FromSlash os p) = ToSlash os p := by
  cases os with
  | unix => rfl
  | windows =>
    have hsep : ¬ ('\\' = '/') := by decide
    simp only [ToSlash, FromSlash, Separator, hsep, if_false]
    induction p with
    | nil => rfl
    | cons c cs ih =>
      simp only [replaceAll, List.flatMap_cons] at ih ⊢
      by_cases h1 : c = '/'
      · subst h1
        have h2 : ¬ ('/' = '\\') := by decide
        simp [h2, ih]
      · by_cases h2 : c = '\\'
        · simp [h1, h2, ih]
        · simp [h1, h2, ih]

/-- C6, as the code has it.  `ShouldIgnore` removes one leading `./`: for
every checker and every path whose normalised form does not itself begin with
`./`, putting `./` in front leaves the answer unchanged; and for every path,
with no condition on it, the answer is the same whether the path is written
with `/` or with the separator of the platform. -/
theorem shouldIgnore_normalisation_invariant (os : Platform) (ic : IgnoreChecker) (p : Str) :
    (HasPrefix (ToSlash os p) ['.', '/'] = false →
      ic.ShouldIgnore os ('.' :: '/' :: p) = ic.ShouldIgnore os p) ∧
    ic.ShouldIgnore os (FromSlash os p) = ic.ShouldIgnore os p := by
  have e1 : HasPrefix ('.' :: '/' :: ToSlash os p) ['.', '/'] = true := by simp [HasPrefix]
  constructor
  · intro h
    simp only [IgnoreChecker.ShouldIgnore, ToSlash_dot_slash, e1, h]
    simp
  · simp only [IgnoreChecker.ShouldIgnore, ToSlash_FromSlash]

/-- The checker of a repository whose `.riftignore` holds the root-anchored
pattern `/a`. -/
def anchoredChecker : IgnoreChecker :=
  (defaultIgnores ++ ["/a".toList]).foldl IgnoreChecker.addPattern ⟨[], [], true⟩

/-- C6, on Windows with a root-anchored pattern: the path `a/b` does not
begin with `./`, so `./a/b` gets the same answer; and the path `./a/b`, which
does begin with `./`, gets the same answer written as `.\a\b`. -/
theorem shouldIgnore_normalisation_invariant_witness :
    HasPrefix (ToSlash Platform.windows "a/b".toList) ['.', '/'] = false ∧
    anchoredChecker.ShouldIgnore Platform.windows ('.' :: '/' :: "a/b".toList) =
      anchoredChecker.ShouldIgnore Platform.windows "a/b".toList ∧
    anchoredChecker.ShouldIgnore Platform.windows (FromSlash Platform.windows "./a/b".toList) =
      anchoredChecker.ShouldIgnore Platform.windows "./a/b".toList :=
  ⟨by decide,
    (shouldIgnore_normalisation_invariant Platform.windows anchoredChecker "a/b".toList).1
      (by decide),
    (shouldIgnore_normalisation_invariant Platform.windows anchoredChecker "./a/b".toList).2⟩

/-- C6 fails as stated: with the root-anchored pattern `/a` in `.riftignore`
the path `./a` is ignored, and the same path with `./` put in front is not. -/
theorem shouldIgnore_dot_slash_not_invariant :
    NewIgnoreChecker (mkFS [(".riftignore", some "/a\n")]) ['.'] = .ok anchoredChecker ∧
    anchoredChecker.modelled = true ∧
    anchoredChecker.ShouldIgnore Platform.unix "./a".toList = true ∧
    anchoredChecker.ShouldIgnore Platform.unix ("./".toList ++ "./a".toList) = false := by
  refine ⟨?_, by decide!, by decide!, by decide!⟩
  decide!

/-- C5. The default rules and a line feed.  With no `.riftignore`, the checker
ignores `.rift`, `.rift/config`, `.DS_Store` and `nested/Thumbs.db` and does
not ignore `README.md`; it also does not ignore the path `.rift/a\nb`, which
lies below `.rift/`. -/
theorem default_rules_miss_line_feed_below_rift :
    ignores [] ['.'] ".rift".toList = some true ∧
    ignores [] ['.'] ".rift/config".toList = some true ∧
    ignores [] ['.'] ".DS_Store".toList = some true ∧
    ignores [] ['.'] "nested/Thumbs.db".toList = some true ∧
    ignores [] ['.'] "README.md".toList = some false ∧
    ignores [] ['.'] ".rift/a\nb".toList = some false := by
  refine ⟨by decide!, by decide!, by decide!, by decide!, by decide!, by decide!⟩

/-- C7. Subtree closure.  With the pattern `build` the path `build` is ignored
and the path `build/a\nb` below it is not; with the pattern `.*` the path `.`
is ignored and the path `./README.md` below it is not. -/
theorem subtree_closure_fails :
    ignores (mkFS [(".riftignore", some "build\n")]) ['.'] "build".toList = some true ∧
    ignores (mkFS [(".riftignore", some "build\n")]) ['.']
      ("build".toList ++ ['/'] ++ "a\nb".toList) = some false ∧
    ignores (mkFS [(".riftignore", some ".*\n")]) ['.'] ".".toList = some true ∧
    ignores (mkFS [(".riftignore", some ".*\n")]) ['.']
      (".".toList ++ ['/'] ++ "README.md".toList) = some false := by
  refine ⟨by decide!, by decide!, by decide!, by decide!⟩

/-- A working tree whose `.riftignore` holds the pattern `.*` for hidden
files. -/
def hiddenFilesTree : FS :=
  mkFS [(".riftignore", some ".*\n"), ("README.md", some "readme\n"), ("src", none),
    ("src/main.go", some "package main\n")]

/-- C8. The walk and the root directory.  In a tree with `README.md` and
`src/main.go` and the pattern `.*`, neither file nor the directory `src` is
ignored, but `GetAllFiles` returns no file: the root is handed to the checker
as `.`, matches the pattern and is pruned, so the callback runs once. -/
theorem getAllFiles_prunes_root :
    ignores hiddenFilesTree ['.'] "README.md".toList = some false ∧
    ignores hiddenFilesTree ['.'] "src".toList = some false ∧
    ignores hiddenFilesTree ['.'] "src/main.go".toList = some false ∧
    ignores hiddenFilesTree ['.'] ".".toList = some true ∧
    repo.GetAllFiles hiddenFilesTree = .ok ([], none) ∧
    visited repo hiddenFilesTree = [".".toList] := by
  refine ⟨by decide!, by decide!, by decide!, by decide!, by decide!, by decide!⟩

/-! ### Further properties -/

theorem hexDigit_mem (n : Nat) (h : n < 16) : hexDigit n ∈ "0123456789abcdef".toList := by
  interval_cases n <;> decide

theorem hexEncode_length (bs : Bytes) : (hexEncode bs).length = 2 * bs.length := by
  induction bs with
  | nil => rfl
  | cons b rest ih =>
    simp only [hexEncode, List.flatMap_cons, List.length_append, List.length_cons,
      List.length_nil] at ih ⊢
    omega

theorem hexEncode_chars (bs : Bytes) : ∀ c ∈ hexEncode bs, c ∈ "0123456789abcdef".toList := by
  induction bs with
  | nil => intro c hc; simp [hexEncode] at hc
  | cons b rest ih =>
    intro c hc
    simp only [hexEncode, List.flatMap_cons, List.mem_append, List.mem_cons,
      List.mem_singleton, List.not_mem_nil, or_false] at hc ih
    have hb : b.toNat < 256 := b.val.isLt
    rcases hc with (h | h) | h
    · rw [h]
      exact hexDigit_mem _ (by omega)
    · rw [h]
      exact hexDigit_mem _ (by omega)
    · exact ih c h

theorem sha256_length (msg : Bytes) : (sha256 msg).length = 32 := by
  simp [sha256, beBytes]

/-- The digest `hashFile` returns for a readable file is 64 characters long
and consists of lowercase hexadecimal digits. -/
theorem hashFile_digest_format (r : Repository) (fs : FS) (filename digest : Str)
    (h : r.hashFile fs filename = .ok digest) :
    digest.length = 64 ∧ ∀ c ∈ digest, c ∈ "0123456789abcdef".toList := by
  simp only [Repository.hashFile] at h
  cases hread : readFile fs filename with
  | error e => rw [hread] at h; simp at h
  | ok content =>
    rw [hread] at h
    simp only [Except.ok.injEq] at h
    subst h
    exact ⟨by rw [hexEncode_length, sha256_length], hexEncode_chars _⟩

/-- The digest format at the file `a.txt` of the example tree. -/
theorem hashFile_digest_format_witness :
    (hexEncode (sha256 (utf8 "hello\n".toList))).length = 64 ∧
    ∀ c ∈ hexEncode (sha256 (utf8 "hello\n".toList)), c ∈ "0123456789abcdef".toList :=
  hashFile_digest_format repo oneFile "a.txt".toList _ (by decide!)

/-- `AddFile` refuses a path the checker ignores and leaves the state as it
is. -/
theorem addFile_ignored_unchanged (r : Repository) (fs : FS) (filename : Str)
    (ic : IgnoreChecker) (hic : NewIgnoreChecker fs r.Path = .ok ic)
    (h : ic.ShouldIgnore Platform.unix filename = true) :
    r.AddFile fs filename = (.error (RiftError.ignored filename), fs) := by
  simp [Repository.AddFile, hic, h]

/-- Staging a file below `.rift` is refused in the example repository. -/
theorem addFile_ignored_unchanged_witness :
    repo.AddFile staged ".rift/HEAD".toList =
      (.error (RiftError.ignored ".rift/HEAD".toList), staged) :=
  addFile_ignored_unchanged repo staged ".rift/HEAD".toList
    (defaultIgnores.foldl IgnoreChecker.addPattern ⟨[], [], true⟩) (by decide!) (by decide!)

/-- A working tree with build output and the pattern `build/`. -/
def buildTree : FS :=
  mkFS [(".riftignore", some "build/\n"), ("README.md", some "readme\n"), ("build", none),
    ("build/output.bin", some "bin"), ("build/sub", none), ("build/sub/deep.o", some "obj"),
    ("src", none), ("src/main.go", some "package main\n")]

/-- With the pattern `build/`, `GetAllFiles` returns neither `build/output.bin`
nor `build/sub/deep.o`; the directory `build/sub` is pruned, so nothing in it
is visited, while `build` itself is walked. -/
theorem getAllFiles_build_example :
    repo.GetAllFiles buildTree =
      .ok ([".riftignore".toList, "README.md".toList, "src/main.go".toList], none) ∧
    visited repo buildTree =
      [".".toList, ".riftignore".toList, "README.md".toList, "build".toList,
        "build/output.bin".toList, "build/sub".toList, "src".toList, "src/main.go".toList] := by
  refine ⟨by decide!, by decide!⟩

/-! ### The default rules on all paths -/

theorem any_m_cons (i : Nat) (c : Char) (cs : Str) (k : Nat → Str → Bool) :
    Re.any.m i (c :: cs) k = (decide (c ≠ '\n') && k (i + 1) cs) := rfl

/-- `.*` runs to the end of a text without line feeds. -/
theorem starLoop_any_to_end (s : Str) (hs : '\n' ∉ s) (n i : Nat) (k : Nat → Str → Bool)
    (hn : s.length ≤ n) (hk : k (i + s.length) [] = true) :
    starLoop Re.any.m n i s k = true := by
  induction s generalizing n i with
  | nil =>
    cases n with
    | zero => simpa [starLoop] using hk
    | succ m =>
      have : k i [] = true := by simpa using hk
      simp [starLoop, this]
  | cons c cs ih =>
    cases n with
    | zero => simp at hn
    | succ m =>
      have hc : c ≠ '\n' := fun h => hs (h ▸ List.mem_cons_self _ _)
      have hcs : '\n' ∉ cs := fun h => hs (List.mem_cons_of_mem _ h)
      have hlen : cs.length ≤ m := by simpa using hn
      have hk1 : k (i + 1 + cs.length) [] = true := by
        have e : i + 1 + cs.length = i + (c :: cs).length := by simp; omega
        rw [e]; exact hk
      have := ih hcs m (i + 1) hlen hk1
      rw [starLoop, any_m_cons]
      simp [hc, this]

/-- The expression of the default pattern `.rift`. -/
def riftRe : Re :=
  .cat (.alt .bol (.cat (.star .any) (.lit '/')))
    (.cat (.lit '.') (.cat (.lit 'r') (.cat (.lit 'i') (.cat (.lit 'f') (.cat (.lit 't')
      (.cat (.opt (.cat (.lit '/') (.star .any))) .eol))))))

/-- An expression `(^|.*/)` followed by `rest` matches at the last `/` before
a text that `rest` matches entirely, wherever that `/` stands. -/
theorem searchFrom_after_slash (rest : Re) (t : Str)
    (ht : ∀ i : Nat, rest.m i t (fun _ _ => true) = true) (d : Str) (i : Nat) :
    searchFrom (.cat (.alt .bol (.cat (.star .any) (.lit '/'))) rest) i (d ++ '/' :: t) =
      true := by
  induction d generalizing i with
  | nil =>
    have h := ht (i + 1)
    simp [searchFrom, Re.m, starLoop, h]
  | cons c cs ih =>
    simp [searchFrom, ih (i + 1)]

/-- What `ShouldIgnore` matches against for a path that ends in `/` and a last
segment `t`: the segment alone, or something that still ends in `/` and `t`. -/
theorem strip_keeps_last_segment (d t : Str) :
    (if HasPrefix (d ++ '/' :: t) ['.', '/'] then (d ++ '/' :: t).drop 2 else d ++ '/' :: t) = t ∨
    ∃ d1 : Str,
      (if HasPrefix (d ++ '/' :: t) ['.', '/'] then (d ++ '/' :: t).drop 2 else d ++ '/' :: t) =
        d1 ++ '/' :: t := by
  by_cases h : HasPrefix (d ++ '/' :: t) ['.', '/'] = true
  · rw [if_pos h]
    match d with
    | [] => exact Or.inr ⟨[], by simp [HasPrefix] at h⟩
    | [c] => exact Or.inl (by simp)
    | c1 :: c2 :: d2 => exact Or.inr ⟨d2, by simp⟩
  · rw [if_neg h]
    exact Or.inr ⟨d, rfl⟩

theorem regexps_addPattern (ic : IgnoreChecker) (pattern : Str) (re : Re)
    (h : re ∈ ic.regexps) : re ∈ (ic.addPattern pattern).regexps := by
  unfold IgnoreChecker.addPattern
  split <;> simp [h]

theorem regexps_loadLine (ic : IgnoreChecker) (raw : Bytes) (re : Re)
    (h : re ∈ ic.regexps) : re ∈ (loadLine ic raw).regexps := by
  simp only [loadLine]
  split_ifs
  · exact h
  · exact regexps_addPattern ic _ re h
  · exact h

theorem regexps_foldl_loadLine (lines : List Bytes) (ic : IgnoreChecker) (re : Re)
    (h : re ∈ ic.regexps) : re ∈ (lines.foldl loadLine ic).regexps := by
  induction lines generalizing ic with
  | nil => exact h
  | cons l ls ih => exact ih (loadLine ic l) (regexps_loadLine ic l re h)

/-- Every checker `NewIgnoreChecker` returns holds the expressions of the
default patterns, whatever `.riftignore` contains. -/
theorem regexps_NewIgnoreChecker (fs : FS) (root : Str) (ic : IgnoreChecker)
    (h : NewIgnoreChecker fs root = .ok ic) (re : Re)
    (hre : re ∈ (defaultIgnores.foldl IgnoreChecker.addPattern ⟨[], [], true⟩).regexps) :
    re ∈ ic.regexps := by
  simp only [NewIgnoreChecker] at h
  split at h
  · simp only [IgnoreChecker.loadIgnoreFile] at h
    split at h
    · simp at h
    · split at h
      · simp at h
      · simp only [Except.ok.injEq] at h
        rw [← h]
        exact regexps_foldl_loadLine _ _ re hre
  · simp only [Except.ok.injEq] at h
    rw [← h]
    exact hre

theorem default_regexps :
    (defaultIgnores.foldl IgnoreChecker.addPattern ⟨[], [], true⟩).regexps =
      [riftRe,
        .cat (.alt .bol (.cat (.star .any) (.lit '/')))
          (.cat (.lit '.') (.cat (.lit 'r') (.cat (.lit 'i') (.cat (.lit 'f') (.cat (.lit 't')
            (.cat (.lit '/') (.cat (.star .any) (.cat (.star .any)
              (.cat (.opt (.cat (.lit '/') (.star .any))) .eol))))))))),
        .cat (.alt .bol (.cat (.star .any) (.lit '/')))
          (catAll (".DS_Store".toList.map Re.lit ++
            [.opt (.cat (.lit '/') (.star .any)), .eol])),
        .cat (.alt .bol (.cat (.star .any) (.lit '/')))
          (catAll ("Thumbs.db".toList.map Re.lit ++
            [.opt (.cat (.lit '/') (.star .any)), .eol]))] := by
  decide!

theorem ShouldIgnore_unix (ic : IgnoreChecker) (path : Str) :
    ic.ShouldIgnore Platform.unix path =
      ic.regexps.any fun regex =>
        MatchString regex (if HasPrefix path ['.', '/'] then path.drop 2 else path) := rfl

theorem matchString_at_start (rest : Re) (t : Str)
    (ht : ∀ i : Nat, rest.m i t (fun _ _ => true) = true) :
    MatchString (.cat (.alt .bol (.cat (.star .any) (.lit '/'))) rest) t = true := by
  have h := ht 0
  cases t with
  | nil => simp [MatchString, searchFrom, Re.m, h]
  | cons c cs => simp [MatchString, searchFrom, Re.m, h]

/-- A pattern without `/` that matches a name matches every path whose last
segment is that name. -/
theorem shouldIgnore_last_segment (ic : IgnoreChecker) (rest : Re) (t : Str)
    (hre : Re.cat (.alt .bol (.cat (.star .any) (.lit '/'))) rest ∈ ic.regexps)
    (ht : ∀ i : Nat, rest.m i t (fun _ _ => true) = true) (d : Str) :
    ic.ShouldIgnore Platform.unix (d ++ '/' :: t) = true := by
  rw [ShouldIgnore_unix, List.any_eq_true]
  refine ⟨_, hre, ?_⟩
  rcases strip_keeps_last_segment d t with h | ⟨d1, h⟩
  · rw [h]
    exact matchString_at_start rest t ht
  · rw [h]
    exact searchFrom_after_slash rest t ht d1 0

theorem matchString_rift_subtree (s : Str) (hs : '\n' ∉ s) :
    MatchString riftRe ('.' :: 'r' :: 'i' :: 'f' :: 't' :: '/' :: s) = true := by
  have key := starLoop_any_to_end s hs s.length 6
    (fun j t => Re.eol.m j t (fun _ _ => true)) (Nat.le_refl _) (by simp [Re.m])
  simp only [MatchString, searchFrom, Bool.or_eq_true]
  left
  simp only [riftRe]
  have e : ∀ (a b : Re) (i : Nat) (u : Str) (k : Nat → Str → Bool),
      (Re.cat a b).m i u k = a.m i u (fun j t => b.m j t k) := fun _ _ _ _ _ => rfl
  have e1 : ∀ (a b : Re) (i : Nat) (u : Str) (k : Nat → Str → Bool),
      (Re.alt a b).m i u k = (a.m i u k || b.m i u k) := fun _ _ _ _ _ => rfl
  have e2 : ∀ (c x : Char) (i : Nat) (u : Str) (k : Nat → Str → Bool),
      (Re.lit c).m i (x :: u) k = (decide (x = c) && k (i + 1) u) := fun _ _ _ _ _ => rfl
  have e3 : ∀ (i : Nat) (u : Str) (k : Nat → Str → Bool),
      Re.bol.m i u k = (decide (i = 0) && k i u) := fun _ _ _ => rfl
  have e4 : ∀ (a : Re) (i : Nat) (u : Str) (k : Nat → Str → Bool),
      (Re.opt a).m i u k = (a.m i u k || k i u) := fun _ _ _ _ => rfl
  have e5 : ∀ (a : Re) (i : Nat) (u : Str) (k : Nat → Str → Bool),
      (Re.star a).m i u k = starLoop a.m u.length i u k := fun _ _ _ _ => rfl
  simp only [e, e1, e2, e3, e4, e5]
  simp [key]

/-- The default rules, for every checker `NewIgnoreChecker` returns and every
content of `.riftignore`: `.rift` is ignored, every path below `.rift/` that
holds no line feed is ignored, and so is every path whose last segment is
`.DS_Store` or `Thumbs.db`. -/
theorem default_rules_ignore (fs : FS) (root : Str) (ic : IgnoreChecker)
    (h : NewIgnoreChecker fs root = .ok ic) :
    ic.ShouldIgnore Platform.unix ".rift".toList = true ∧
    (∀ s : Str, '\n' ∉ s → ic.ShouldIgnore Platform.unix (".rift/".toList ++ s) = true) ∧
    ic.ShouldIgnore Platform.unix ".DS_Store".toList = true ∧
    (∀ d : Str, ic.ShouldIgnore Platform.unix (d ++ "/.DS_Store".toList) = true) ∧
    ic.ShouldIgnore Platform.unix "Thumbs.db".toList = true ∧
    (∀ d : Str, ic.ShouldIgnore Platform.unix (d ++ "/Thumbs.db".toList) = true) := by
  have hmem := regexps_NewIgnoreChecker fs root ic h
  rw [default_regexps] at hmem
  have hrift := hmem riftRe (by simp)
  have hds := hmem (.cat (.alt .bol (.cat (.star .any) (.lit '/')))
      (catAll (".DS_Store".toList.map Re.lit ++ [.opt (.cat (.lit '/') (.star .any)), .eol])))
    (by simp)
  have hth := hmem (.cat (.alt .bol (.cat (.star .any) (.lit '/')))
      (catAll ("Thumbs.db".toList.map Re.lit ++ [.opt (.cat (.lit '/') (.star .any)), .eol])))
    (by simp)
  have mds : ∀ i : Nat, (catAll (".DS_Store".toList.map Re.lit ++
      [.opt (.cat (.lit '/') (.star .any)), .eol])).m i ".DS_Store".toList
      (fun _ _ => true) = true := by
    intro i
    simp [catAll, Re.m]
  have mth : ∀ i : Nat, (catAll ("Thumbs.db".toList.map Re.lit ++
      [.opt (.cat (.lit '/') (.star .any)), .eol])).m i "Thumbs.db".toList
      (fun _ _ => true) = true := by
    intro i
    simp [catAll, Re.m]
  refine ⟨?_, ?_, ?_, ?_, ?_, ?_⟩
  · rw [ShouldIgnore_unix, List.any_eq_true]
    exact ⟨_, hrift, by decide⟩
  · intro s hs
    rw [ShouldIgnore_unix, List.any_eq_true]
    refine ⟨_, hrift, ?_⟩
    have hp : HasPrefix (".rift/".toList ++ s) ['.', '/'] = false := by
      simp [HasPrefix, List.isPrefixOf]
    rw [hp]
    exact matchString_rift_subtree s hs
  · rw [ShouldIgnore_unix, List.any_eq_true]
    exact ⟨_, hds, by decide⟩
  · intro d
    exact shouldIgnore_last_segment ic _ ".DS_Store".toList hds mds d
  · rw [ShouldIgnore_unix, List.any_eq_true]
    exact ⟨_, hth, by decide⟩
  · intro d
    exact shouldIgnore_last_segment ic _ "Thumbs.db".toList hth mth d

/-- The default rules in a repository whose `.riftignore` holds `build/`. -/
theorem default_rules_ignore_witness :
    IgnoreChecker.ShouldIgnore Platform.unix
      ((defaultIgnores ++ ["build/".toList]).foldl IgnoreChecker.addPattern ⟨[], [], true⟩)
      ".rift".toList = true :=
  (default_rules_ignore buildTree ['.'] _ (by decide!)).1

end Rift
